import Mathlib

/-!
Verification of the analysis-orchestration and diagnostic-parsing engine of
`src/analyzers/csa_wrapper.py` (class `CSAWrapper`).

The Python code is shallowly embedded: Python strings are modelled as
`List Char` (the diagnostics handled by the tool are ASCII text, so the
ASCII-range behaviour of `str.lower` / `str.strip` is what matters), Python
lists as Lean lists, the dictionaries built by the wrapper as Lean
structures, and the two external effects — the spawned analyzer subprocess
and the file system walked by `os.walk` — as explicit inputs (an outcome
oracle, and a directory tree).
-/

set_option maxRecDepth 4000

/-- PyStr models a Python `str` as its list of characters. -/
abbrev PyStr := List Char

/-- pyIsSpace models Python `str.isspace` for a single character over the
ASCII range: the characters stripped by `str.strip()` with no argument. -/
def pyIsSpace (c : Char) : Bool :=
  c = ' ' || c = '\t' || c = '\n' || c = '\x0d' || c = '\x0b' || c = '\x0c'

/-- pyStrip models Python `s.strip()`: drop leading and trailing whitespace. -/
def pyStrip (s : PyStr) : PyStr :=
  ((s.dropWhile pyIsSpace).reverse.dropWhile pyIsSpace).reverse

/-- pyLower models Python `s.lower()` over the ASCII range. -/
def pyLower (s : PyStr) : PyStr :=
  s.map Char.toLower

/-- pyContains models the Python expression `needle in hay` on strings:
substring containment. -/
def pyContains (needle hay : PyStr) : Bool :=
  decide (needle <:+: hay)

/-- pyEndsWith models Python `s.endswith(suffix)`. -/
def pyEndsWith (sfx s : PyStr) : Bool :=
  decide (sfx <:+ s)

/-- splitOnceAt finds the first occurrence of `sep` and returns the text
before and after it, or `none` when `sep` does not occur. -/
def splitOnceAt (sep : Char) : PyStr → Option (PyStr × PyStr)
  | [] => none
  | c :: cs =>
    if c = sep then some ([], cs)
    else
      match splitOnceAt sep cs with
      | none => none
      | some (pre, post) => some (c :: pre, post)

/-- pySplitMax models Python `s.split(sep, maxsplit)` for a single-character
separator and a non-negative maxsplit: at most `maxsplit` splits are made,
the remainder is kept whole. -/
def pySplitMax (sep : Char) : Nat → PyStr → List PyStr
  | 0, s => [s]
  | n + 1, s =>
    match splitOnceAt sep s with
    | none => [s]
    | some (pre, post) => pre :: pySplitMax sep n post

/-- isLineBreakChar lists the single characters Python `str.splitlines`
treats as line boundaries (`\r\n` is additionally treated as one boundary
by `pySplitlines` itself). -/
def isLineBreakChar (c : Char) : Bool :=
  c = '\n' || c = '\x0d' || c = '\x0b' || c = '\x0c' || c = '\x1c' ||
  c = '\x1d' || c = '\x1e' || c = '\x85' || c = '\u2028' || c = '\u2029'

/-- splitlinesAux accumulates the current line (reversed) while scanning;
a trailing line break produces no empty final line, as in Python. -/
def splitlinesAux : PyStr → PyStr → List PyStr
  | [], acc => if acc.isEmpty then [] else [acc.reverse]
  | '\x0d' :: '\n' :: rest, acc => acc.reverse :: splitlinesAux rest []
  | c :: cs, acc =>
    if isLineBreakChar c then
      acc.reverse :: splitlinesAux cs []
    else
      splitlinesAux cs (c :: acc)

/-- pySplitlines models Python `s.splitlines()`. -/
def pySplitlines (s : PyStr) : List PyStr :=
  splitlinesAux s []

/-- warningMarker is the literal `": warning:"` tested by the parser. -/
def warningMarker : PyStr := ": warning:".data

/-- errorMarker is the literal `": error:"` tested by the parser. -/
def errorMarker : PyStr := ": error:".data

/-- isHeaderLike models the parser's header test
`": warning:" in line or ": error:" in line`. -/
def isHeaderLike (l : PyStr) : Bool :=
  pyContains warningMarker l || pyContains errorMarker l

/-- Warning models one dictionary built by `_parse_text_output`: the keys
`file`, `line`, `column`, `severity`, `message`, `context`. -/
structure Warning where
  file : PyStr
  line : PyStr
  column : PyStr
  severity : PyStr
  message : PyStr
  context : List PyStr
deriving DecidableEq, Repr

/-- mkWarningFromParts models the dictionary literal the parser builds
from `parts = line.split(":", 4)`: `parts[0].strip()` through
`parts[4].strip()` (the guard `len(parts) >= 5` makes every index in
range, so the `getD` defaults are never used there). -/
def mkWarningFromParts (parts : List PyStr) : Warning :=
  { file := pyStrip (parts.getD 0 []), line := pyStrip (parts.getD 1 []),
    column := pyStrip (parts.getD 2 []), severity := pyStrip (parts.getD 3 []),
    message := pyStrip (parts.getD 4 []), context := [] }

/-- appendContext models `current_warning["context"].append(line)`. -/
def appendContext (w : Warning) (l : PyStr) : Warning :=
  { w with context := w.context ++ [l] }

/-- parseLoop models the main loop of `_parse_text_output`, including its
aliasing behaviour: Python appends `current_warning` to `warnings` by
reference, so a record appended at a malformed header-like line is still
mutated by later context lines and is appended again when it is finally
flushed. The model therefore keeps, next to the open record `curr`, the
number `copies` of times `curr` has already been appended to the output
list, and materialises all `copies + 1` aliased references — which in
Python all show the record's final contents, and are adjacent in the output
because no other record can be appended while `curr` is open — when `curr`
is replaced or the input ends. -/
def parseLoop : List PyStr → Option Warning → Nat → List Warning → List Warning
  | [], none, _, done => done
  | [], some w, copies, done => done ++ List.replicate (copies + 1) w
  | l :: ls, curr, copies, done =>
    if isHeaderLike l then
      if 5 ≤ (pySplitMax ':' 4 l).length then
        match curr with
        | none => parseLoop ls (some (mkWarningFromParts (pySplitMax ':' 4 l))) 0 done
        | some w =>
          parseLoop ls (some (mkWarningFromParts (pySplitMax ':' 4 l))) 0
            (done ++ List.replicate (copies + 1) w)
      else
        match curr with
        | none => parseLoop ls none copies done
        | some w => parseLoop ls (some w) (copies + 1) done
    else
      match curr with
      | none => parseLoop ls none copies done
      | some w =>
        if (pyStrip l).isEmpty then parseLoop ls (some w) copies done
        else parseLoop ls (some (appendContext w l)) copies done

/-- parse_text_output models `CSAWrapper._parse_text_output`. -/
def parse_text_output (output : PyStr) : List Warning :=
  parseLoop (pySplitlines output) none 0 []

/-- isWellFormedHeader states the claims' notion of a well-formed header
line, which coincides with the parser's acceptance test: the line contains
a severity marker and `line.split(":", 4)` yields at least 5 fields. -/
def isWellFormedHeader (l : PyStr) : Bool :=
  isHeaderLike l && decide ((pySplitMax ':' 4 l).length ≥ 5)

/-- countWellFormedHeaders counts the well-formed header lines of a
diagnostic text. -/
def countWellFormedHeaders (s : PyStr) : Nat :=
  (pySplitlines s).countP isWellFormedHeader

-- sanity examples (kept: they pin the model to concrete Python behaviour)
example : pySplitMax ':' 4 ("f.c:10:5: warning: null deref".data) =
    ["f.c".data, "10".data, "5".data, " warning".data, " null deref".data] := by
  decide

example : pySplitlines ("a\n\nb\n".data) = ["a".data, [], "b".data] := by decide

example : pyStrip ("  x y ".data) = "x y".data := by decide

example : parse_text_output ("f.c:10:5: warning: null deref\n".data) =
    [{ file := "f.c".data, line := "10".data, column := "5".data,
       severity := "warning".data, message := "null deref".data,
       context := [] }] := by decide

/-- parseLoop_forall: a property preserved by context appends, true of all
already-closed records, true of the open record, and true of every record
the remaining lines can open, holds for every record the loop returns. -/
theorem parseLoop_forall (Q : Warning → Prop)
    (hctx : ∀ w l, Q w → Q (appendContext w l)) :
    ∀ (ls : List PyStr) (curr : Option Warning) (copies : Nat)
      (done : List Warning),
    (∀ w ∈ done, Q w) → (∀ w, curr = some w → Q w) →
    (∀ l ∈ ls, isHeaderLike l = true → 5 ≤ (pySplitMax ':' 4 l).length →
      Q (mkWarningFromParts (pySplitMax ':' 4 l))) →
    ∀ w ∈ parseLoop ls curr copies done, Q w := by
  intro ls
  induction ls with
  | nil =>
    intro curr copies done hdone hcurr _ w hw
    cases curr with
    | none => exact hdone w hw
    | some v =>
      simp only [parseLoop] at hw
      rcases List.mem_append.1 hw with h | h
      · exact hdone w h
      · rw [List.eq_of_mem_replicate h]
        exact hcurr v rfl
  | cons l ls ih =>
    intro curr copies done hdone hcurr hnew w hw
    have hnew2 : ∀ x ∈ ls, isHeaderLike x = true →
        5 ≤ (pySplitMax ':' 4 x).length →
        Q (mkWarningFromParts (pySplitMax ':' 4 x)) :=
      fun x hx => hnew x (List.mem_cons_of_mem l hx)
    have hhead : isHeaderLike l = true → 5 ≤ (pySplitMax ':' 4 l).length →
        Q (mkWarningFromParts (pySplitMax ':' 4 l)) :=
      hnew l (List.mem_cons_self l ls)
    cases curr with
    | none =>
      simp only [parseLoop] at hw
      by_cases hh : isHeaderLike l = true
      · rw [if_pos hh] at hw
        by_cases h5 : 5 ≤ (pySplitMax ':' 4 l).length
        · rw [if_pos h5] at hw
          refine ih _ _ _ hdone ?_ hnew2 w hw
          intro u hu
          injection hu with h
          rw [← h]
          exact hhead hh h5
        · rw [if_neg h5] at hw
          exact ih _ _ _ hdone (fun u hu => Option.noConfusion hu) hnew2 w hw
      · rw [if_neg hh] at hw
        exact ih _ _ _ hdone (fun u hu => Option.noConfusion hu) hnew2 w hw
    | some v =>
      simp only [parseLoop] at hw
      by_cases hh : isHeaderLike l = true
      · rw [if_pos hh] at hw
        by_cases h5 : 5 ≤ (pySplitMax ':' 4 l).length
        · rw [if_pos h5] at hw
          refine ih _ _ _ ?_ ?_ hnew2 w hw
          · intro u hu
            rcases List.mem_append.1 hu with h | h
            · exact hdone u h
            · rw [List.eq_of_mem_replicate h]
              exact hcurr v rfl
          · intro u hu
            injection hu with h
            rw [← h]
            exact hhead hh h5
        · rw [if_neg h5] at hw
          exact ih _ _ _ hdone hcurr hnew2 w hw
      · rw [if_neg hh] at hw
        by_cases hs : (pyStrip l).isEmpty = true
        · rw [if_pos hs] at hw
          exact ih _ _ _ hdone hcurr hnew2 w hw
        · rw [if_neg hs] at hw
          refine ih _ _ _ hdone ?_ hnew2 w hw
          intro u hu
          injection hu with h
          rw [← h]
          exact hctx v l (hcurr v rfl)

/-- C9: parsing the two-diagnostic scenario text returns exactly two
records in order — first `{file f.c, line 10, col 5, warning, "null deref",
context ["  trace line"]}`, then `{file f.c, line 20, col 1, error,
"leak", empty context}`. -/
theorem c9_two_record_scenario :
    parse_text_output
        "f.c:10:5: warning: null deref\n  trace line\nf.c:20:1: error: leak\n".data =
      [{ file := "f.c".data, line := "10".data, column := "5".data,
         severity := "warning".data, message := "null deref".data,
         context := ["  trace line".data] },
       { file := "f.c".data, line := "20".data, column := "1".data,
         severity := "error".data, message := "leak".data, context := [] }] := by
  decide

/-- C1: evaluation of the parser at the failing input
`"a:1:2: warning: m\n: warning: x"`: the input has exactly one well-formed
header line, yet two records are returned (the malformed second line
flushes the open record, which the dangling `current_warning` reference
then flushes again at end of input). -/
theorem c1_record_count_mismatch :
    (parse_text_output ("a:1:2: warning: m\n: warning: x".data)).length = 2 ∧
    countWellFormedHeaders ("a:1:2: warning: m\n: warning: x".data) = 1 := by
  decide

/-- C2: evaluation at a failing input for the malformed-header claim: the
malformed header-like line `": error: junk"` makes the parser emit the
preceding record twice, where the same text without that line yields the
record once — the malformed line does cause a duplicate record. -/
theorem c2_malformed_header_duplicates_record :
    parse_text_output ("b:3:4: error: n\n: error: junk".data) =
      [{ file := "b".data, line := "3".data, column := "4".data,
         severity := "error".data, message := "n".data, context := [] },
       { file := "b".data, line := "3".data, column := "4".data,
         severity := "error".data, message := "n".data, context := [] }] ∧
    parse_text_output ("b:3:4: error: n".data) =
      [{ file := "b".data, line := "3".data, column := "4".data,
         severity := "error".data, message := "n".data, context := [] }] := by
  decide

/-- C4 counterexample: on the input `"a:b:c:d: warning: x"` — a header
line whose severity marker sits in the fifth colon field — the parser
produces one record whose severity is `"d"`, which is neither `"warning"`
nor `"error"`, refuting the claimed invariant. -/
theorem c4_severity_counterexample :
    parse_text_output ("a:b:c:d: warning: x".data) =
      [{ file := "a".data, line := "b".data, column := "c".data,
         severity := "d".data, message := "warning: x".data, context := [] }] ∧
    ("d".data : PyStr) ≠ "warning".data ∧ ("d".data : PyStr) ≠ "error".data := by
  decide

/-- C4 (amended): every record produced by the parser carries as severity
the stripped fourth colon-delimited field of one of the input's well-formed
header lines — it is `"warning"`/`"error"` exactly when the marker occupies
that field, and other strings are possible. -/
theorem c4_severity_from_fourth_field (out : PyStr) (w : Warning)
    (hw : w ∈ parse_text_output out) :
    ∃ l ∈ pySplitlines out, isHeaderLike l = true ∧
      5 ≤ (pySplitMax ':' 4 l).length ∧
      w.severity = pyStrip ((pySplitMax ':' 4 l).getD 3 []) := by
  refine parseLoop_forall
    (fun v => ∃ l ∈ pySplitlines out, isHeaderLike l = true ∧
      5 ≤ (pySplitMax ':' 4 l).length ∧
      v.severity = pyStrip ((pySplitMax ':' 4 l).getD 3 []))
    ?_ (pySplitlines out) none 0 [] ?_ ?_ ?_ w hw
  · intro v l hv
    simpa [appendContext] using hv
  · intro v hv
    exact absurd hv (List.not_mem_nil v)
  · intro v hv
    exact Option.noConfusion hv
  · intro l hl hh h5
    exact ⟨l, hl, hh, h5, rfl⟩

/-- c4_severity_from_fourth_field_witness instantiates the amended C4
theorem at the concrete input `"f.c:1:2: error: boom"` and its single
parsed record. -/
theorem c4_severity_from_fourth_field_witness :
    ∃ l ∈ pySplitlines ("f.c:1:2: error: boom".data), isHeaderLike l = true ∧
      5 ≤ (pySplitMax ':' 4 l).length ∧
      ({ file := "f.c".data, line := "1".data, column := "2".data,
         severity := "error".data, message := "boom".data,
         context := [] } : Warning).severity =
        pyStrip ((pySplitMax ':' 4 l).getD 3 []) :=
  c4_severity_from_fourth_field ("f.c:1:2: error: boom".data)
    { file := "f.c".data, line := "1".data, column := "2".data,
      severity := "error".data, message := "boom".data, context := [] }
    (by decide)

/-- ProcOutcome models the three ways `subprocess.run(cmd, capture_output=
True, text=True, timeout=60)` can come back to `analyze_file`: normal
completion with an exit code and captured streams, `TimeoutExpired`, or any
other exception (whose message Python interpolates into the error string).
The spawned analyzer is external to the repository, so the outcome is an
input of the model. -/
inductive ProcOutcome where
  | completed (returncode : Int) (stdout stderr : PyStr)
  | timedOut
  | failed (msg : PyStr)
deriving DecidableEq, Repr

/-- FileResult models the result dictionary of `analyze_file`: the keys
`file`, `success`, `warnings`, `errors`, `stdout`, `stderr`. -/
structure FileResult where
  file : PyStr
  success : Bool
  warnings : List Warning
  errors : List PyStr
  stdout : PyStr
  stderr : PyStr
deriving DecidableEq, Repr

/-- timeoutMsg is the literal appended on `subprocess.TimeoutExpired`. -/
def timeoutMsg : PyStr := "Analysis timeout (60s)".data

/-- failedMsgHead is the prefix of the error entry appended on any other
exception. -/
def failedMsgHead : PyStr := "Analysis failed: ".data

/-- analyze_file models `CSAWrapper.analyze_file`: the result dictionary is
initialised with `success=False`, empty `warnings`/`errors` and empty
streams, then updated according to how the subprocess came back. Warnings
are parsed from stderr only when stderr is non-empty (`if proc.stderr:`),
and `success = (proc.returncode == 0)`. On timeout or another exception the
initial values are kept except for the appended error string; no exception
escapes, mirroring the try/except that returns the dictionary in all
cases. -/
def analyze_file (outcome : ProcOutcome) (sourceFile : PyStr) : FileResult :=
  match outcome with
  | .completed rc out err =>
    { file := sourceFile, success := decide (rc = 0),
      warnings := if err.isEmpty then [] else parse_text_output err,
      errors := [], stdout := out, stderr := err }
  | .timedOut =>
    { file := sourceFile, success := false, warnings := [],
      errors := [timeoutMsg], stdout := [], stderr := [] }
  | .failed msg =>
    { file := sourceFile, success := false, warnings := [],
      errors := [failedMsgHead ++ msg], stdout := [], stderr := [] }

/-- BatchAcc models the running `results` dictionary of
`analyze_directory`: the keys `files_analyzed`, `files_with_warnings`,
`total_warnings`, `results`. -/
structure BatchAcc where
  filesAnalyzed : Nat
  filesWithWarnings : Nat
  totalWarnings : Nat
  results : List FileResult
deriving DecidableEq, Repr

/-- batchLoop models the per-file loop of `analyze_directory`: each file is
analyzed, its FileResult appended, `files_analyzed` incremented, and the
warning counters updated only when the file produced at least one
warning (`if file_result["warnings"]:`). -/
def batchLoop (oracle : PyStr → ProcOutcome) : List PyStr → BatchAcc → BatchAcc
  | [], acc => acc
  | f :: fs, acc =>
    let r := analyze_file (oracle f) f
    batchLoop oracle fs
      { filesAnalyzed := acc.filesAnalyzed + 1,
        filesWithWarnings :=
          acc.filesWithWarnings + (if r.warnings.isEmpty then 0 else 1),
        totalWarnings :=
          acc.totalWarnings + (if r.warnings.isEmpty then 0 else r.warnings.length),
        results := acc.results ++ [r] }

/-- batchLoop_spec characterises the loop in closed form: every listed file
contributes exactly one FileResult, in order, independently of the per-file
outcomes, and the counters are the corresponding count and sum. -/
theorem batchLoop_spec (oracle : PyStr → ProcOutcome) :
    ∀ (files : List PyStr) (acc : BatchAcc),
      batchLoop oracle files acc =
        { filesAnalyzed := acc.filesAnalyzed + files.length,
          filesWithWarnings := acc.filesWithWarnings +
            (files.map (fun g => analyze_file (oracle g) g)).countP
              (fun r => !r.warnings.isEmpty),
          totalWarnings := acc.totalWarnings +
            ((files.map (fun g => analyze_file (oracle g) g)).map
              (fun r => r.warnings.length)).sum,
          results := acc.results ++ files.map (fun g => analyze_file (oracle g) g) } := by
  intro files
  induction files with
  | nil => intro acc; simp [batchLoop]
  | cons f fs ih =>
    intro acc
    rw [batchLoop, ih]
    simp only [List.map_cons, List.countP_cons, List.sum_cons,
      List.length_cons, BatchAcc.mk.injEq]
    by_cases h : (analyze_file (oracle f) f).warnings.isEmpty
    · have hnil : (analyze_file (oracle f) f).warnings = [] := by
        simpa [List.isEmpty_iff] using h
      refine ⟨by omega, by simp [hnil], by simp [hnil], by simp⟩
    · have hb : (analyze_file (oracle f) f).warnings.isEmpty = false := by
        simpa using h
      refine ⟨by omega, ?_, ?_, by simp⟩
      · simp [hb]
        omega
      · simp [hb]
        omega

/-- C5: a timed-out analysis yields a FileResult with `success=False`, the
recorded timeout error string, empty findings and empty captured streams;
and the batch loop analyzes every listed file whatever each subprocess
outcome is, so a timeout never prevents the analysis of subsequent
files. -/
theorem c5_timeout_isolated :
    ∀ (f : PyStr),
      analyze_file ProcOutcome.timedOut f =
        { file := f, success := false, warnings := [], errors := [timeoutMsg],
          stdout := [], stderr := [] } ∧
      ∀ (oracle : PyStr → ProcOutcome) (files : List PyStr) (acc : BatchAcc),
        (batchLoop oracle files acc).results =
          acc.results ++ files.map (fun g => analyze_file (oracle g) g) := by
  intro f
  refine ⟨rfl, ?_⟩
  intro oracle files acc
  rw [batchLoop_spec]

/-- C6: on normal completion `analyze_file` reports `success` exactly when
the exit code is 0, records no error entry (the non-raising path), and its
findings are the parse of the captured stderr whatever the exit code is
(the code skips the parser call on empty stderr, which parses to `[]`
anyway). -/
theorem c6_success_flag_and_parse :
    ∀ (rc : Int) (out err f : PyStr),
      (analyze_file (ProcOutcome.completed rc out err) f).success =
        decide (rc = 0) ∧
      (analyze_file (ProcOutcome.completed rc out err) f).warnings =
        parse_text_output err ∧
      (analyze_file (ProcOutcome.completed rc out err) f).errors = [] := by
  intro rc out err f
  refine ⟨rfl, ?_, rfl⟩
  simp only [analyze_file]
  by_cases h : err.isEmpty
  · have he : err = [] := by simpa [List.isEmpty_iff] using h
    rw [if_pos h, he]
    rfl
  · rw [if_neg h]

mutual
/-- Dir models one directory of the file system traversed by `os.walk`:
its immediate subdirectories (name and subtree, in listing order) and the
names of its regular files; the mutual shape keeps all recursions
structural. -/
inductive Dir where
  | node : DirList → List PyStr → Dir
/-- DirList is a subdirectory listing: name and subtree pairs in listing
order. -/
inductive DirList where
  | nil : DirList
  | cons : PyStr → Dir → DirList → DirList
end

/-- dirNames lists the names of a subdirectory listing. -/
def dirNames : DirList → List PyStr
  | .nil => []
  | .cons nm _ rest => nm :: dirNames rest

/-- defaultExcludePatterns is the default `exclude_patterns` list of
`find_source_files`. -/
def defaultExcludePatterns : List PyStr :=
  ["fuzz".data, "afl".data, "honggfuzz".data, "libfuzzer".data,
   "test".data, "tests".data, "example".data, "examples".data]

/-- sourceExtensions is the `extensions` set of `find_source_files`
(membership tests are order-independent, so a list models the set). -/
def sourceExtensions : List PyStr :=
  [".c".data, ".cpp".data, ".cc".data, ".cxx".data, ".c++".data]

/-- pyJoin models `os.path.join(base, name)` for a base path that does not
end in a separator; the walk roots are taken absolute and normalized, so
`os.path.abspath` on the joined path is the identity and is not modelled
separately. -/
def pyJoin (base nm : PyStr) : PyStr :=
  base ++ '/' :: nm

/-- matchesAny models `any(pattern in s.lower() for pattern in
exclude_patterns)` — the test the code applies both to directory names
(for pruning) and to full file paths (the second filter). Note only `s`
is lower-cased; the pattern is used verbatim. -/
def matchesAny (pats : List PyStr) (s : PyStr) : Bool :=
  pats.any (fun p => pyContains p (pyLower s))

/-- isSourceFileName models `any(file.endswith(ext) for ext in
extensions)`. -/
def isSourceFileName (f : PyStr) : Bool :=
  sourceExtensions.any (fun e => pyEndsWith e f)

/-- filesHere models the inner `for file in files` loop of one `os.walk`
triple: keep files with a source extension whose full joined path does not
match any exclude pattern. -/
def filesHere (pats : List PyStr) (base : PyStr) (fs : List PyStr) : List PyStr :=
  fs.filterMap (fun f =>
    if isSourceFileName f then
      if matchesAny pats (pyJoin base f) then none else some (pyJoin base f)
    else none)

mutual
/-- collect models the whole `os.walk(root_dir)` loop of
`find_source_files` in top-down order: the files of the current directory,
then the kept (un-pruned) subdirectories in listing order. -/
def collect (pats : List PyStr) (base : PyStr) : Dir → List PyStr
  | .node cs fs => filesHere pats base fs ++ collectKept pats base cs
/-- collectKept models the pruning `dirs[:] = [d for d in dirs if not
any(pattern in d.lower() ...)]`: an excluded subtree is never visited. -/
def collectKept (pats : List PyStr) (base : PyStr) : DirList → List PyStr
  | .nil => []
  | .cons nm sub rest =>
    (if matchesAny pats nm then [] else collect pats (pyJoin base nm) sub) ++
      collectKept pats base rest
end

/-- find_source_files models `CSAWrapper.find_source_files`. The file
system is an explicit input: `none` models a root directory that does not
exist, on which `os.walk` (with its default `onerror=None`) yields no
triples at all; `some d` models an existing root whose contents are `d`.
`sorted(...)` on Python strings is lexicographic by code point, which is
the lexicographic linear order on `List Char`. -/
def find_source_files (rootDir : PyStr) (excludePatterns : Option (List PyStr))
    (fs : Option Dir) : List PyStr :=
  let pats := match excludePatterns with
    | none => defaultExcludePatterns
    | some ps => ps
  let walked := match fs with
    | none => []
    | some d => collect pats rootDir d
  walked.insertionSort (· ≤ ·)

mutual
/-- allPaths lists every file path of a subtree (no extension filter, no
exclusion): the paths that exist inside a directory. Used to state what
"a path lying inside a directory" means. -/
def allPaths (base : PyStr) : Dir → List PyStr
  | .node cs fs => fs.map (fun f => pyJoin base f) ++ allPathsList base cs
/-- allPathsList is `allPaths` over a listing. -/
def allPathsList (base : PyStr) : DirList → List PyStr
  | .nil => []
  | .cons nm sub rest => allPaths (pyJoin base nm) sub ++ allPathsList base rest
end

mutual
/-- underExcludedDir decides whether the path `p` lies inside some
directory of the tree whose name matches an exclude pattern in the sense
the code computes it (`pattern in name.lower()`: only the name is
folded). -/
def underExcludedDir (pats : List PyStr) (base : PyStr) : Dir → PyStr → Bool
  | .node cs _, p => underExcludedDirList pats base cs p
/-- underExcludedDirList scans a listing: a matching directory claims
every path below it; a non-matching one is searched recursively. -/
def underExcludedDirList (pats : List PyStr) (base : PyStr) : DirList → PyStr → Bool
  | .nil, _ => false
  | .cons nm sub rest, p =>
    (if matchesAny pats nm then (allPaths (pyJoin base nm) sub).any (fun q => decide (q = p))
     else underExcludedDir pats (pyJoin base nm) sub p) ||
      underExcludedDirList pats base rest p
end

/-- matchesAnyCI is the claim's reading of "matches an exclusion pattern
(case-insensitive substring)": both the pattern and the directory name are
case-folded before the substring test. For all-lowercase patterns (such as
every default pattern) it agrees with `matchesAny`. -/
def matchesAnyCI (pats : List PyStr) (s : PyStr) : Bool :=
  pats.any (fun p => pyContains (pyLower p) (pyLower s))

mutual
/-- underExcludedDirCI is `underExcludedDir` with the claim's
case-insensitive matching. -/
def underExcludedDirCI (pats : List PyStr) (base : PyStr) : Dir → PyStr → Bool
  | .node cs _, p => underExcludedDirListCI pats base cs p
/-- underExcludedDirListCI is `underExcludedDirList` with the claim's
case-insensitive matching. -/
def underExcludedDirListCI (pats : List PyStr) (base : PyStr) : DirList → PyStr → Bool
  | .nil, _ => false
  | .cons nm sub rest, p =>
    (if matchesAnyCI pats nm then (allPaths (pyJoin base nm) sub).any (fun q => decide (q = p))
     else underExcludedDirCI pats (pyJoin base nm) sub p) ||
      underExcludedDirListCI pats base rest p
end

/-- validName states that a string can be one file-system entry name: it is
non-empty and contains no path separator. -/
def validName (n : PyStr) : Bool :=
  !n.isEmpty && !n.any (fun c => decide (c = '/'))

mutual
/-- wfDir states well-formedness of a modelled directory tree, which every
real directory tree satisfies: within one directory all entry names
(files and subdirectories together) are distinct valid names. -/
def wfDir : Dir → Bool
  | .node cs fs =>
    decide ((fs ++ dirNames cs).Nodup) && (fs ++ dirNames cs).all validName &&
      wfDirList cs
/-- wfDirList is `wfDir` over a listing. -/
def wfDirList : DirList → Bool
  | .nil => true
  | .cons _ sub rest => wfDir sub && wfDirList rest
end

-- sanity examples for the locator model
example :
    find_source_files ("/r".data) none
        (some (.node (.cons ("fuzz".data) (.node .nil ["a.c".data]) .nil)
          ["m.c".data, "x.h".data])) = ["/r/m.c".data] := by
  decide

example :
    find_source_files ("/r".data) (some [])
        (some (.node (.cons ("b".data) (.node .nil ["z.c".data]) .nil)
          ["a.cpp".data])) = ["/r/a.cpp".data, "/r/b/z.c".data] := by
  decide

/-- validName_spec unpacks `validName`. -/
theorem validName_spec (n : PyStr) (h : validName n = true) :
    n ≠ [] ∧ '/' ∉ n := by
  simp only [validName, Bool.and_eq_true, Bool.not_eq_true', List.any_eq_false,
    decide_eq_false_iff_not] at h
  obtain ⟨h1, h2⟩ := h
  constructor
  · intro he
    rw [he] at h1
    exact absurd h1 (by decide)
  · intro hc
    exact h2 _ hc rfl

/-- pyJoin_inj: joining distinct names to the same base gives distinct
paths. -/
theorem pyJoin_inj {base x y : PyStr} (h : pyJoin base x = pyJoin base y) :
    x = y := by
  simp only [pyJoin] at h
  have h2 := List.append_cancel_left h
  rw [List.cons.injEq] at h2
  exact h2.2

/-- seg_inj: a path of the shape `a ++ "/" ++ t` with a separator-free
first segment `a` determines that segment and the remainder uniquely. -/
theorem seg_inj : ∀ (a b t u : PyStr), '/' ∉ a → '/' ∉ b →
    a ++ '/' :: t = b ++ '/' :: u → a = b ∧ t = u := by
  intro a
  induction a with
  | nil =>
    intro b t u _ hb he
    cases b with
    | nil =>
      simp only [List.nil_append, List.cons.injEq] at he
      exact ⟨rfl, he.2⟩
    | cons c bs =>
      simp only [List.nil_append, List.cons_append, List.cons.injEq] at he
      obtain ⟨hc, _⟩ := he
      rw [hc] at hb
      exact absurd (List.mem_cons_self _ _) hb
  | cons c as ih =>
    intro b t u ha hb he
    cases b with
    | nil =>
      simp only [List.cons_append, List.nil_append, List.cons.injEq] at he
      obtain ⟨hc, _⟩ := he
      rw [← hc] at ha
      exact absurd (List.mem_cons_self _ _) ha
    | cons c2 bs =>
      simp only [List.cons_append, List.cons.injEq] at he
      obtain ⟨h1, h2⟩ := he
      have ha2 : '/' ∉ as := fun hx => ha (List.mem_cons_of_mem c hx)
      have hb2 : '/' ∉ bs := fun hx => hb (List.mem_cons_of_mem c2 hx)
      obtain ⟨hab, htu⟩ := ih bs t u ha2 hb2 h2
      exact ⟨by rw [h1, hab], htu⟩

/-- mem_filesHere characterises membership in the per-directory file
filter: the path comes from a listed file joined to the base, and its full
path matches no exclude pattern. -/
theorem mem_filesHere {pats : List PyStr} {base : PyStr} {fs : List PyStr}
    {p : PyStr} (h : p ∈ filesHere pats base fs) :
    ∃ f ∈ fs, p = pyJoin base f ∧ matchesAny pats p = false := by
  rcases List.mem_filterMap.1 h with ⟨f, hf, he⟩
  by_cases h1 : isSourceFileName f = true
  · rw [if_pos h1] at he
    by_cases h2 : matchesAny pats (pyJoin base f) = true
    · rw [if_pos h2] at he
      exact Option.noConfusion he
    · rw [if_neg h2] at he
      rw [Option.some.injEq] at he
      refine ⟨f, hf, he.symm, ?_⟩
      rw [← he]
      simp only [Bool.not_eq_true] at h2
      exact h2
  · rw [if_neg h1] at he
    exact Option.noConfusion he

mutual
/-- shape_collect: every collected path extends the base with a
separator. -/
theorem shape_collect (pats : List PyStr) :
    ∀ (d : Dir) (base p : PyStr), p ∈ collect pats base d →
      ∃ t, p = base ++ '/' :: t
  | .node cs fs, base, p, h => by
    simp only [collect] at h
    rcases List.mem_append.1 h with h | h
    · obtain ⟨f, _, hp, _⟩ := mem_filesHere h
      exact ⟨f, hp⟩
    · obtain ⟨nm, t, _, hp⟩ := shape_collectKept pats cs base p h
      exact ⟨nm ++ '/' :: t, hp⟩
/-- shape_collectKept: every path collected under a listing goes through
one of the listed subdirectory names. -/
theorem shape_collectKept (pats : List PyStr) :
    ∀ (cs : DirList) (base p : PyStr), p ∈ collectKept pats base cs →
      ∃ nm t, nm ∈ dirNames cs ∧ p = base ++ '/' :: (nm ++ '/' :: t)
  | .nil, base, p, h => by
    simp only [collectKept] at h
    exact absurd h (List.not_mem_nil p)
  | .cons nm sub rest, base, p, h => by
    simp only [collectKept] at h
    rcases List.mem_append.1 h with h | h
    · by_cases hm : matchesAny pats nm = true
      · rw [if_pos hm] at h
        exact absurd h (List.not_mem_nil p)
      · rw [if_neg hm] at h
        obtain ⟨t, hp⟩ := shape_collect pats sub (pyJoin base nm) p h
        refine ⟨nm, t, by simp [dirNames], ?_⟩
        rw [hp]
        simp [pyJoin]
    · obtain ⟨nm2, t, hmem, hp⟩ := shape_collectKept pats rest base p h
      exact ⟨nm2, t, by simp only [dirNames]; exact List.mem_cons_of_mem _ hmem, hp⟩
end

mutual
/-- collect_no_pattern: no collected path contains an exclude pattern in
its lower-cased text — this is the full-path filter of the code. -/
theorem collect_no_pattern (pats : List PyStr) :
    ∀ (d : Dir) (base p : PyStr), p ∈ collect pats base d →
      matchesAny pats p = false
  | .node cs fs, base, p, h => by
    simp only [collect] at h
    rcases List.mem_append.1 h with h | h
    · obtain ⟨f, _, _, hm⟩ := mem_filesHere h
      exact hm
    · exact collectKept_no_pattern pats cs base p h
/-- collectKept_no_pattern is `collect_no_pattern` over a listing. -/
theorem collectKept_no_pattern (pats : List PyStr) :
    ∀ (cs : DirList) (base p : PyStr), p ∈ collectKept pats base cs →
      matchesAny pats p = false
  | .nil, base, p, h => by
    simp only [collectKept] at h
    exact absurd h (List.not_mem_nil p)
  | .cons nm sub rest, base, p, h => by
    simp only [collectKept] at h
    rcases List.mem_append.1 h with h | h
    · by_cases hm : matchesAny pats nm = true
      · rw [if_pos hm] at h
        exact absurd h (List.not_mem_nil p)
      · rw [if_neg hm] at h
        exact collect_no_pattern pats sub (pyJoin base nm) p h
    · exact collectKept_no_pattern pats rest base p h
end

mutual
/-- allPaths_shape: every path inside a directory extends its base path
with a separator. -/
theorem allPaths_shape :
    ∀ (d : Dir) (base p : PyStr), p ∈ allPaths base d →
      ∃ t, p = base ++ '/' :: t
  | .node cs fs, base, p, h => by
    simp only [allPaths] at h
    rcases List.mem_append.1 h with h | h
    · obtain ⟨f, _, hf⟩ := List.mem_map.1 h
      exact ⟨f, hf.symm⟩
    · exact allPathsList_shape cs base p h
/-- allPathsList_shape is `allPaths_shape` over a listing. -/
theorem allPathsList_shape :
    ∀ (cs : DirList) (base p : PyStr), p ∈ allPathsList base cs →
      ∃ t, p = base ++ '/' :: t
  | .nil, base, p, h => by
    simp only [allPathsList] at h
    exact absurd h (List.not_mem_nil p)
  | .cons nm sub rest, base, p, h => by
    simp only [allPathsList] at h
    rcases List.mem_append.1 h with h | h
    · obtain ⟨t, hp⟩ := allPaths_shape sub (pyJoin base nm) p h
      refine ⟨nm ++ '/' :: t, ?_⟩
      rw [hp]
      simp [pyJoin]
    · exact allPathsList_shape rest base p h
end

/-- nodup_filesHere: a duplicate-free file listing yields duplicate-free
joined paths. -/
theorem nodup_filesHere (pats : List PyStr) (base : PyStr) (fs : List PyStr)
    (h : fs.Nodup) : (filesHere pats base fs).Nodup := by
  refine List.Nodup.filterMap ?_ h
  intro a b c hca hcb
  simp only [Option.mem_def] at hca hcb
  have key : ∀ x y : PyStr,
      (if isSourceFileName x = true then
        if matchesAny pats (pyJoin base x) = true then none
        else some (pyJoin base x)
      else none) = some y → y = pyJoin base x := by
    intro x y hxy
    by_cases h1 : isSourceFileName x = true
    · rw [if_pos h1] at hxy
      by_cases h2 : matchesAny pats (pyJoin base x) = true
      · rw [if_pos h2] at hxy
        exact Option.noConfusion hxy
      · rw [if_neg h2] at hxy
        rw [Option.some.injEq] at hxy
        exact hxy.symm
    · rw [if_neg h1] at hxy
      exact Option.noConfusion hxy
  have ha := key a c hca
  have hb := key b c hcb
  exact pyJoin_inj (ha.symm.trans hb)

mutual
/-- nodup_collect: on a well-formed tree the collected path list has no
duplicates. -/
theorem nodup_collect (pats : List PyStr) :
    ∀ (d : Dir) (base : PyStr), wfDir d = true → (collect pats base d).Nodup
  | .node cs fs, base, h => by
    simp only [wfDir, Bool.and_eq_true, decide_eq_true_eq] at h
    obtain ⟨⟨hnd, hval⟩, hcs⟩ := h
    have hvalm : ∀ n ∈ fs ++ dirNames cs, validName n = true := by
      intro n hn
      exact List.all_eq_true.mp hval n hn
    simp only [collect]
    refine List.Nodup.append ?_ ?_ ?_
    · exact nodup_filesHere pats base fs hnd.of_append_left
    · exact nodup_collectKept pats cs base hcs hnd.of_append_right
        (fun nm hnm => hvalm nm (List.mem_append_right fs hnm))
    · intro p hp hp2
      obtain ⟨f, hf, hpf, _⟩ := mem_filesHere hp
      obtain ⟨nm, t, _, hpn⟩ := shape_collectKept pats cs base p hp2
      have hpf2 : p = base ++ '/' :: f := by
        simpa [pyJoin] using hpf
      have hjoin : base ++ '/' :: f = base ++ '/' :: (nm ++ '/' :: t) :=
        hpf2.symm.trans hpn
      have hseg := List.append_cancel_left hjoin
      rw [List.cons.injEq] at hseg
      have hvf := validName_spec f (hvalm f (List.mem_append_left _ hf))
      apply hvf.2
      rw [hseg.2]
      exact List.mem_append_right nm (List.mem_cons_self _ _)
/-- nodup_collectKept: distinct valid names make sibling subtrees produce
disjoint path sets. -/
theorem nodup_collectKept (pats : List PyStr) :
    ∀ (cs : DirList) (base : PyStr), wfDirList cs = true →
      (dirNames cs).Nodup → (∀ nm ∈ dirNames cs, validName nm = true) →
      (collectKept pats base cs).Nodup
  | .nil, base, _, _, _ => by simp [collectKept]
  | .cons nm sub rest, base, h, hnd, hval => by
    simp only [wfDirList, Bool.and_eq_true] at h
    obtain ⟨hsub, hrest⟩ := h
    simp only [dirNames, List.nodup_cons] at hnd
    obtain ⟨hnotin, hndrest⟩ := hnd
    have hvrest : ∀ x ∈ dirNames rest, validName x = true := by
      intro x hx
      exact hval x (by simp only [dirNames]; exact List.mem_cons_of_mem _ hx)
    simp only [collectKept]
    refine List.Nodup.append ?_ ?_ ?_
    · by_cases hm : matchesAny pats nm = true
      · rw [if_pos hm]
        exact List.nodup_nil
      · rw [if_neg hm]
        exact nodup_collect pats sub (pyJoin base nm) hsub
    · exact nodup_collectKept pats rest base hrest hndrest hvrest
    · intro p hp hp2
      by_cases hm : matchesAny pats nm = true
      · rw [if_pos hm] at hp
        exact absurd hp (List.not_mem_nil p)
      · rw [if_neg hm] at hp
        obtain ⟨t, hpt⟩ := shape_collect pats sub (pyJoin base nm) p hp
        obtain ⟨nm2, u, hnm2, hpu⟩ := shape_collectKept pats rest base p hp2
        have hpt2 : p = base ++ '/' :: (nm ++ '/' :: t) := by
          rw [hpt]
          simp [pyJoin]
        have hjoin : base ++ '/' :: (nm ++ '/' :: t) =
            base ++ '/' :: (nm2 ++ '/' :: u) := hpt2.symm.trans hpu
        have hseg := List.append_cancel_left hjoin
        rw [List.cons.injEq] at hseg
        have hv1 := validName_spec nm (hval nm (by simp [dirNames]))
        have hv2 := validName_spec nm2 (hvrest nm2 hnm2)
        obtain ⟨he, _⟩ := seg_inj nm nm2 t u hv1.2 hv2.2 hseg.2
        exact hnotin (he ▸ hnm2)
end

/-- contains_of_name_under: a pattern contained in the lower-cased name of
a directory is contained in the lower-cased text of every path below that
directory. -/
theorem contains_of_name_under {q nm base t p : PyStr}
    (hq : pyContains q (pyLower nm) = true)
    (hp : p = pyJoin base nm ++ '/' :: t) :
    pyContains q (pyLower p) = true := by
  simp only [pyContains, decide_eq_true_eq] at hq ⊢
  rw [hp]
  simp only [pyJoin, pyLower, List.map_append, List.map_cons, List.append_assoc]
  refine hq.trans ?_
  have h1 := List.infix_append (List.map Char.toLower base ++ [Char.toLower '/'])
    (List.map Char.toLower nm) (Char.toLower '/' :: List.map Char.toLower t)
  simpa [List.append_assoc] using h1

mutual
/-- underExcludedDir_pattern: a path lying below a code-matched directory
contains a pattern in its lower-cased text. -/
theorem underExcludedDir_pattern (pats : List PyStr) :
    ∀ (d : Dir) (base p : PyStr), underExcludedDir pats base d p = true →
      matchesAny pats p = true
  | .node cs fs, base, p, h =>
    underExcludedDirList_pattern pats cs base p
      (by simpa [underExcludedDir] using h)
/-- underExcludedDirList_pattern is `underExcludedDir_pattern` over a
listing. -/
theorem underExcludedDirList_pattern (pats : List PyStr) :
    ∀ (cs : DirList) (base p : PyStr),
      underExcludedDirList pats base cs p = true → matchesAny pats p = true
  | .nil, base, p, h => by simp [underExcludedDirList] at h
  | .cons nm sub rest, base, p, h => by
    simp only [underExcludedDirList, Bool.or_eq_true] at h
    rcases h with h | h
    · by_cases hm : matchesAny pats nm = true
      · rw [if_pos hm] at h
        have hpmem : p ∈ allPaths (pyJoin base nm) sub := by
          rcases List.any_eq_true.mp h with ⟨q, hq, hqe⟩
          rw [decide_eq_true_eq] at hqe
          rw [← hqe]
          exact hq
        obtain ⟨t, hpt⟩ := allPaths_shape sub (pyJoin base nm) p hpmem
        simp only [matchesAny, List.any_eq_true] at hm ⊢
        obtain ⟨q, hqmem, hqc⟩ := hm
        exact ⟨q, hqmem, contains_of_name_under hqc hpt⟩
      · rw [if_neg hm] at h
        exact underExcludedDir_pattern pats sub (pyJoin base nm) p h
    · exact underExcludedDirList_pattern pats rest base p h
end

/-- C8 (amended): for every pattern list and well-formed tree,
`find_source_files` returns a lexicographically sorted, duplicate-free
list, none of whose paths lies inside a directory whose name matches a
pattern in the sense the code computes matching: the pattern occurs
verbatim as a substring of the lower-cased directory name (for lowercase
patterns — all defaults are lowercase — this is exactly case-insensitive
matching; see the counterexample for mixed-case patterns). -/
theorem c8_exclusion_sorted_nodup (pats : List PyStr) (root : PyStr)
    (d : Dir) (h : wfDir d = true) :
    (find_source_files root (some pats) (some d)).Sorted (· ≤ ·) ∧
    (find_source_files root (some pats) (some d)).Nodup ∧
    ∀ p ∈ find_source_files root (some pats) (some d),
      underExcludedDir pats root d p = false := by
  have hperm : (find_source_files root (some pats) (some d)).Perm
      (collect pats root d) := by
    simp only [find_source_files]
    exact List.perm_insertionSort _ _
  refine ⟨?_, ?_, ?_⟩
  · simp only [find_source_files]
    exact List.sorted_insertionSort _ _
  · exact hperm.nodup_iff.mpr (nodup_collect pats d root h)
  · intro p hp
    have hpc : p ∈ collect pats root d := hperm.mem_iff.mp hp
    have hno := collect_no_pattern pats d root p hpc
    by_contra hcon
    simp only [Bool.not_eq_false] at hcon
    have hpat := underExcludedDir_pattern pats d root p hcon
    rw [hno] at hpat
    exact Bool.noConfusion hpat

/-- c8_exclusion_sorted_nodup_witness instantiates the amended C8 theorem
on a concrete well-formed tree with one excluded and one kept
subdirectory. -/
theorem c8_exclusion_sorted_nodup_witness :
    (find_source_files ("/r".data) (some ["fuzz".data])
        (some (.node (.cons ("fuzz".data) (.node .nil ["a.c".data])
          (.cons ("src".data) (.node .nil ["b.c".data, "c.c".data]) .nil))
          ["top.c".data]))).Sorted (· ≤ ·) ∧
    (find_source_files ("/r".data) (some ["fuzz".data])
        (some (.node (.cons ("fuzz".data) (.node .nil ["a.c".data])
          (.cons ("src".data) (.node .nil ["b.c".data, "c.c".data]) .nil))
          ["top.c".data]))).Nodup ∧
    ∀ p ∈ find_source_files ("/r".data) (some ["fuzz".data])
        (some (.node (.cons ("fuzz".data) (.node .nil ["a.c".data])
          (.cons ("src".data) (.node .nil ["b.c".data, "c.c".data]) .nil))
          ["top.c".data])),
      underExcludedDir ["fuzz".data] ("/r".data)
        (.node (.cons ("fuzz".data) (.node .nil ["a.c".data])
          (.cons ("src".data) (.node .nil ["b.c".data, "c.c".data]) .nil))
          ["top.c".data]) p = false :=
  c8_exclusion_sorted_nodup ["fuzz".data] ("/r".data)
    (.node (.cons ("fuzz".data) (.node .nil ["a.c".data])
      (.cons ("src".data) (.node .nil ["b.c".data, "c.c".data]) .nil))
      ["top.c".data]) (by decide)

/-- C8 counterexample: with the mixed-case exclusion pattern `"FUZZ"`, the
file `/r/fuzz/a.c` is returned even though it lies inside the directory
`fuzz`, whose name matches `"FUZZ"` as a case-insensitive substring — the
code lower-cases only the directory name, never the pattern, refuting the
claim for arbitrary pattern lists. -/
theorem c8_case_sensitive_counterexample :
    find_source_files ("/r".data) (some ["FUZZ".data])
        (some (.node (.cons ("fuzz".data) (.node .nil ["a.c".data]) .nil) [])) =
      ["/r/fuzz/a.c".data] ∧
    underExcludedDirCI ["FUZZ".data] ("/r".data)
        (.node (.cons ("fuzz".data) (.node .nil ["a.c".data]) .nil) [])
        ("/r/fuzz/a.c".data) = true := by
  decide

/-- errNoSourceFiles is the `"error"` value of the dictionary
`analyze_directory` returns when the locator finds nothing. -/
def errNoSourceFiles : PyStr := "No source files found".data

/-- BatchRes models the two dictionaries `analyze_directory` can return:
the locator-error dictionary (keys `error`, `files_analyzed`, `results`)
and the normal aggregate (keys `files_analyzed`, `files_with_warnings`,
`total_warnings`, `results`). -/
inductive BatchRes where
  | locatorError (errMsg : PyStr) (filesAnalyzed : Nat) (results : List FileResult)
  | batch (filesAnalyzed filesWithWarnings totalWarnings : Nat)
      (results : List FileResult)
deriving DecidableEq, Repr

/-- applyCap models `if max_files: source_files = source_files[:max_files]`.
Python truthiness makes both `None` and `0` skip the slice; a negative
`max_files` is outside the model (the parameter is documented as a file
count). -/
def applyCap (maxFiles : Option Nat) (files : List PyStr) : List PyStr :=
  match maxFiles with
  | none => files
  | some n => if n = 0 then files else files.take n

/-- analyze_directory models `CSAWrapper.analyze_directory`: locate the
source files with the default exclude patterns, return the error
dictionary when none are found, otherwise cap the list and run the
per-file loop. -/
def analyze_directory (oracle : PyStr → ProcOutcome) (rootDir : PyStr)
    (fs : Option Dir) (maxFiles : Option Nat) : BatchRes :=
  let sourceFiles := find_source_files rootDir none fs
  if sourceFiles.isEmpty then
    BatchRes.locatorError errNoSourceFiles 0 []
  else
    let acc := batchLoop oracle (applyCap maxFiles sourceFiles) ⟨0, 0, 0, []⟩
    BatchRes.batch acc.filesAnalyzed acc.filesWithWarnings acc.totalWarnings
      acc.results

/-- resultsOf projects the FileResult sequence out of either dictionary. -/
def resultsOf : BatchRes → List FileResult
  | .locatorError _ _ rs => rs
  | .batch _ _ _ rs => rs

/-- analyze_file_file: every outcome keeps the analyzed file name in the
result. -/
theorem analyze_file_file (o : ProcOutcome) (f : PyStr) :
    (analyze_file o f).file = f := by
  cases o <;> rfl

/-- applyCap_le: the capped list is an initial segment of the original. -/
theorem applyCap_le (maxFiles : Option Nat) (files : List PyStr) :
    applyCap maxFiles files <+: files := by
  have hid : files <+: files := ⟨[], List.append_nil files⟩
  match maxFiles with
  | none => exact hid
  | some n =>
    by_cases hn : n = 0
    · have hc : applyCap (some n) files = files := by
        simp [applyCap, hn]
      rw [hc]
    · have hc : applyCap (some n) files = files.take n := by
        simp [applyCap, hn]
      rw [hc]
      exact ⟨files.drop n, List.take_append_drop n files⟩

/-- analyze_directory_spec: whenever `analyze_directory` returns the
normal aggregate, its counters are the length, the count of results with
at least one finding, and the total finding count, and the results are
the capped locator list in order. -/
theorem analyze_directory_spec (oracle : PyStr → ProcOutcome) (rootDir : PyStr)
    (fs : Option Dir) (maxFiles : Option Nat) (fa fw tw : Nat)
    (rs : List FileResult)
    (h : analyze_directory oracle rootDir fs maxFiles =
      BatchRes.batch fa fw tw rs) :
    fa = rs.length ∧
    fw = rs.countP (fun r => !r.warnings.isEmpty) ∧
    tw = (rs.map (fun r => r.warnings.length)).sum ∧
    rs.map (fun r => r.file) =
      applyCap maxFiles (find_source_files rootDir none fs) := by
  simp only [analyze_directory] at h
  by_cases hemp : (find_source_files rootDir none fs).isEmpty = true
  · rw [if_pos hemp] at h
    exact BatchRes.noConfusion h
  · rw [if_neg hemp] at h
    rw [batchLoop_spec] at h
    simp only [BatchRes.batch.injEq, Nat.zero_add, List.nil_append] at h
    obtain ⟨h1, h2, h3, h4⟩ := h
    subst h4
    refine ⟨?_, ?_, ?_, ?_⟩
    · rw [← h1, List.length_map]
    · rw [← h2]
    · rw [← h3]
    · rw [List.map_map]
      have hcomp : ((fun r => FileResult.file r) ∘
          fun g => analyze_file (oracle g) g) = fun g => g := by
        funext g
        exact analyze_file_file (oracle g) g
      rw [hcomp]
      simp

/-- C7: in every normal BatchResult, `files_analyzed` counts all processed
files (fatally failed ones included, since every file contributes exactly
one result), `files_with_warnings` counts the results with at least one
finding, `total_warnings` is the sum of the per-file finding counts — so a
fatally failed file, whose findings are empty, contributes to neither —
and the result sequence follows the locator's sorted path order (the
capped locator list, an initial segment of the full sorted list). -/
theorem c7_batch_counters (oracle : PyStr → ProcOutcome) (rootDir : PyStr)
    (fs : Option Dir) (maxFiles : Option Nat) (fa fw tw : Nat)
    (rs : List FileResult)
    (h : analyze_directory oracle rootDir fs maxFiles =
      BatchRes.batch fa fw tw rs) :
    fa = rs.length ∧
    fw = rs.countP (fun r => !r.warnings.isEmpty) ∧
    tw = (rs.map (fun r => r.warnings.length)).sum ∧
    rs.map (fun r => r.file) =
      applyCap maxFiles (find_source_files rootDir none fs) ∧
    rs.map (fun r => r.file) <+: find_source_files rootDir none fs := by
  obtain ⟨h1, h2, h3, h4⟩ :=
    analyze_directory_spec oracle rootDir fs maxFiles fa fw tw rs h
  refine ⟨h1, h2, h3, h4, ?_⟩
  rw [h4]
  exact applyCap_le maxFiles (find_source_files rootDir none fs)

/-- c7WitnessOracle realises the spec scenario: one file with two
warnings, one clean file, one timing out. -/
def c7WitnessOracle : PyStr → ProcOutcome := fun p =>
  if p = "/r/a.c".data then
    ProcOutcome.completed 0 []
      ("x.c:1:1: warning: m1\nx.c:2:2: warning: m2\n".data)
  else if p = "/r/b.c".data then ProcOutcome.completed 0 [] []
  else ProcOutcome.timedOut

/-- c7WitnessTree is a root directory holding the three scenario files. -/
def c7WitnessTree : Dir := .node .nil ["a.c".data, "b.c".data, "c.c".data]

/-- c7WitnessResults is the FileResult sequence the scenario batch
produces. -/
def c7WitnessResults : List FileResult :=
  resultsOf (analyze_directory c7WitnessOracle ("/r".data)
    (some c7WitnessTree) none)

/-- c7_batch_counters_witness instantiates C7 on the three-file scenario:
`files_analyzed=3`, `files_with_warnings=1`, `total_warnings=2`. -/
theorem c7_batch_counters_witness :
    3 = c7WitnessResults.length ∧
    1 = c7WitnessResults.countP (fun r => !r.warnings.isEmpty) ∧
    2 = (c7WitnessResults.map (fun r => r.warnings.length)).sum ∧
    c7WitnessResults.map (fun r => r.file) =
      applyCap none (find_source_files ("/r".data) none (some c7WitnessTree)) ∧
    c7WitnessResults.map (fun r => r.file) <+:
      find_source_files ("/r".data) none (some c7WitnessTree) :=
  c7_batch_counters c7WitnessOracle ("/r".data) (some c7WitnessTree) none
    3 1 2 c7WitnessResults (by decide)

/-- C10: calling `analyze_directory` with `max_files=0` behaves exactly
like calling it with no limit (`if max_files:` is false for 0), and in the
normal case every file of the locator's result is analyzed — 0 is not an
empty cap. -/
theorem c10_max_files_zero (oracle : PyStr → ProcOutcome) (rootDir : PyStr)
    (fs : Option Dir) :
    analyze_directory oracle rootDir fs (some 0) =
      analyze_directory oracle rootDir fs none ∧
    ∀ (fa fw tw : Nat) (rs : List FileResult),
      analyze_directory oracle rootDir fs (some 0) =
        BatchRes.batch fa fw tw rs →
      rs.map (fun r => r.file) = find_source_files rootDir none fs := by
  constructor
  · rfl
  · intro fa fw tw rs h
    obtain ⟨_, _, _, h4⟩ :=
      analyze_directory_spec oracle rootDir fs (some 0) fa fw tw rs h
    simpa [applyCap] using h4

/-- c10WitnessTree is a root directory holding one source file. -/
def c10WitnessTree : Dir := .node .nil ["a.c".data]

/-- c10Results is the result sequence of the capped-by-zero run on the
witness tree (a single timed-out file). -/
def c10Results : List FileResult :=
  resultsOf (analyze_directory (fun _ => ProcOutcome.timedOut) ("/r".data)
    (some c10WitnessTree) (some 0))

/-- c10_max_files_zero_witness instantiates C10 on the one-file tree. -/
theorem c10_max_files_zero_witness :
    analyze_directory (fun _ => ProcOutcome.timedOut) ("/r".data)
        (some c10WitnessTree) (some 0) =
      analyze_directory (fun _ => ProcOutcome.timedOut) ("/r".data)
        (some c10WitnessTree) none ∧
    c10Results.map (fun r => r.file) =
      find_source_files ("/r".data) none (some c10WitnessTree) :=
  ⟨(c10_max_files_zero (fun _ => ProcOutcome.timedOut) ("/r".data)
      (some c10WitnessTree)).1,
   (c10_max_files_zero (fun _ => ProcOutcome.timedOut) ("/r".data)
      (some c10WitnessTree)).2 1 0 0 c10Results (by decide)⟩

/-- C3: evaluation showing the code cannot distinguish a missing root from
an existing root with zero candidate files: `find_source_files` returns
`[]` for both (on a missing root `os.walk` silently yields no triples),
and `analyze_directory` returns the identical `"No source files found"`
error dictionary for both. -/
theorem c3_missing_root_indistinguishable :
    find_source_files ("/r".data) none (some (Dir.node .nil [])) =
      find_source_files ("/r".data) none none ∧
    analyze_directory (fun _ => ProcOutcome.timedOut) ("/r".data)
        (some (Dir.node .nil [])) none =
      BatchRes.locatorError errNoSourceFiles 0 [] ∧
    analyze_directory (fun _ => ProcOutcome.timedOut) ("/r".data) none none =
      BatchRes.locatorError errNoSourceFiles 0 [] := by
  decide
